import Mathlib

/-!
Verification of the incremental-sync and resumable-download core of the
Kobayashi2003/Crawler repository (the `auto-kemono-downloader` tree, whose
logic the `kemono-downloader` tree duplicates).

Conventions of the shallow embedding:
* Python strings that are only stored, concatenated or tested for equality
  are modelled as Lean `String`.
* Python strings that are *ordered* (publish timestamps, `HH:MM` time
  strings) are modelled as their character lists (`List Char`): Python
  compares `str` lexicographically by code point, which is exactly the
  `LinearOrder (List Char)` order, and character lists evaluate in the
  kernel whereas `String.ltb` does not.
* `requests` collaborators (HTTP responses, the filesystem, the filter,
  the per-post processing outcome) are passed in as explicit data or
  oracle functions, so each code path is a total function of its inputs.
* Python `None` is `Option.none`; Python truthiness of an optional string
  (`if last_date:`) is `truthyOpt` below.
-/

namespace Crawler

/-- Python truthiness of an optional string: `None` and `""` are falsy. -/
def truthyOpt (o : Option (List Char)) : Bool :=
  match o with
  | none => false
  | some s => !s.isEmpty

/-! ## Incremental post fetcher

`DownloadManager._fetch_new_posts` (auto-kemono-downloader/download_manager.py,
lines 77-111).  A listing page is a list of post summaries; the remote API is
modelled as the list of its non-empty pages in offset order (offset 0, 50,
100, ...); any request past that list returns the empty page, exactly as the
real endpoint does once the listing is exhausted. -/

/-- A post summary as returned by the listing endpoint: `id` and the
`published` timestamp (`post.get('published', '')`; a missing field is the
empty string). -/
structure Post where
  id : String
  published : List Char
deriving DecidableEq, Repr

/-- The `for post in posts` body of `_fetch_new_posts`: walk one page,
collecting summaries until (if a truthy watermark exists) one with
`published <= last_date` is met; the Bool records whether the early
`return` was taken. -/
def pageScan (lastDate : Option (List Char)) : List Post → List Post × Bool
  | [] => ([], false)
  | p :: rest =>
    if truthyOpt lastDate = true ∧ p.published ≤ lastDate.getD [] then
      ([], true)
    else
      let r := pageScan lastDate rest
      (p :: r.1, r.2)

/-- The `while True` page loop of `_fetch_new_posts`.  Returns the collected
summaries together with the list of page offsets that were requested.
An empty page breaks the loop; the early return from `pageScan` stops it;
with a falsy watermark only the first page is taken. -/
def fetchPages (lastDate : Option (List Char)) :
    List (List Post) → Nat → List Post × List Nat
  | [], offset => ([], [offset])
  | page :: rest, offset =>
    if page.isEmpty then ([], [offset])
    else
      let s := pageScan lastDate page
      if s.2 then (s.1, [offset])
      else if truthyOpt lastDate = true then
        let r := fetchPages lastDate rest (offset + 50)
        (s.1 ++ r.1, offset :: r.2)
      else (s.1, [offset])

/-- `DownloadManager._fetch_new_posts`: start the page walk at offset 0. -/
def fetch_new_posts (lastDate : Option (List Char)) (pages : List (List Post)) :
    List Post × List Nat :=
  fetchPages lastDate pages 0

/-- Pages sorted newest-first: every later summary's timestamp is `≤` every
earlier one's. -/
def SortedDesc (l : List Post) : Prop :=
  l.Pairwise (fun a b => b.published ≤ a.published)

instance (l : List Post) : Decidable (SortedDesc l) := by
  unfold SortedDesc; infer_instance

/-! ## Retry policy

`retry_on_error` (auto-kemono-downloader/utils.py, lines 21-55; duplicated in
kemono-downloader/utils.py, lines 39-75).  One wrapped call is modelled as a
function from the attempt index to the outcome the operation produces on that
attempt. -/

/-- Outcome of one attempt of the wrapped operation: success with a value,
`requests.Timeout`/`requests.ConnectionError`, `requests.HTTPError` carrying
an optional status code (`getattr(e.response, 'status_code', None)`), or any
other exception. -/
inductive CallResult where
  | ok (v : Nat)
  | netErr
  | httpErr (status : Option Nat)
  | otherErr
deriving DecidableEq, Repr

/-- The wrapped exception `retry_on_error` finally raises. -/
inductive RetryErr where
  | network (attempts : Nat)
  | http (status : Option Nat)
  | unexpected
deriving DecidableEq, Repr

/-- What the wrapper hands back to its caller: the operation's value or the
raised wrapped error; `fellThrough` models Python falling off the loop and
returning `None` when `max_retries = 0`. -/
inductive RetryOutcome where
  | value (v : Nat)
  | raised (e : RetryErr)
  | fellThrough
deriving DecidableEq, Repr

/-- Result of running the wrapper: its outcome, the number of times the
operation was invoked, and the list of back-off sleeps performed (in
seconds, in order). -/
structure RetryResult where
  result : RetryOutcome
  calls : Nat
  sleeps : List Nat
deriving DecidableEq, Repr

/-- `base_delay ** attempt if exponential_backoff else base_delay * attempt`. -/
def waitTime (baseDelay : Nat) (expo : Bool) (attempt : Nat) : Nat :=
  if expo then baseDelay ^ attempt else baseDelay * attempt

/-- Does the raised `HTTPError`'s status qualify for retry
(`status in retry_status`; a `None` status never does)? -/
def statusRetryable (retryStatus : List Nat) : Option Nat → Bool
  | none => false
  | some s => decide (s ∈ retryStatus)

/-- The `for attempt in range(max_retries)` loop of `retry_on_error`.  The
fuel argument is the number of remaining iterations (`max_retries - attempt`),
so the recursion is structural; before every attempt but the first the
back-off sleep is recorded. -/
def retryGo (retryStatus : List Nat) (baseDelay : Nat) (expo : Bool)
    (op : Nat → CallResult) (maxRetries : Nat) :
    Nat → Nat → List Nat → RetryResult
  | 0, attempt, sleeps => ⟨.fellThrough, attempt, sleeps⟩
  | fuel + 1, attempt, sleeps =>
    let sleeps' := if 0 < attempt
      then sleeps ++ [waitTime baseDelay expo attempt] else sleeps
    match op attempt with
    | .ok v => ⟨.value v, attempt + 1, sleeps'⟩
    | .netErr =>
      if attempt = maxRetries - 1 then
        ⟨.raised (.network maxRetries), attempt + 1, sleeps'⟩
      else retryGo retryStatus baseDelay expo op maxRetries fuel (attempt + 1) sleeps'
    | .httpErr st =>
      if statusRetryable retryStatus st = true ∧ attempt < maxRetries - 1 then
        retryGo retryStatus baseDelay expo op maxRetries fuel (attempt + 1) sleeps'
      else ⟨.raised (.http st), attempt + 1, sleeps'⟩
    | .otherErr => ⟨.raised .unexpected, attempt + 1, sleeps'⟩

/-- `retry_on_error(max_retries, base_delay, exponential_backoff,
retry_status)` applied to one operation. -/
def retry_on_error (maxRetries : Nat) (baseDelay : Nat) (expo : Bool)
    (retryStatus : List Nat) (op : Nat → CallResult) : RetryResult :=
  retryGo retryStatus baseDelay expo op maxRetries maxRetries 0 []

/-- The `retry_status` default: `[403, 429, 500, 502, 503, 504]`.  All three
wrapped call sites (`fetch_user_profile`, `fetch_post`, `fetch_posts_page`)
use this default. -/
def defaultRetryStatus : List Nat := [403, 429, 500, 502, 503, 504]

/-! ## Resumable downloader

`download.py` of auto-kemono-downloader (the kemono-downloader tree splits
the same logic into smaller helpers).  The destination file is
`Option (List Nat)`: `none` when it does not exist, otherwise its bytes.
Each attempt's GET is an oracle from the attempt index; the side effects the
claims talk about (HEAD/GET requests, file removal, open mode, chunk writes)
are recorded in a trace. -/

/-- Observable side effects of one `download_file` call.  `getReq r` is the
streaming GET of an attempt, `r` being the resume offset sent in the `Range`
header (`r = 0`: no `Range` header). -/
inductive Event where
  | headReq
  | getReq (rangeStart : Nat)
  | removeFile
  | openFile (append : Bool)
  | writeChunk (chunk : List Nat)
deriving DecidableEq, Repr

/-- What one streaming GET does: raise (timeout/connection error before any
body), or answer with a status, an optional `content-length`, the body chunks
that arrive, and whether iterating the body raises after those chunks
(mid-transfer failure). -/
inductive GetOutcome where
  | raises
  | response (status : Nat) (contentLength : Option Nat)
      (chunks : List (List Nat)) (raisesAfter : Bool)
deriving DecidableEq, Repr

/-- `_check_existing_file` (download.py, lines 23-40): no existing file means
no skip; otherwise a HEAD probe is issued (`Except.error` models the probe
raising, which is swallowed); the file is treated as already downloaded only
when the probe succeeds with a positive `content-length` equal to the local
size. -/
def check_existing_file (head : Except Unit Nat) (fs : Option (List Nat)) :
    Bool × List Event :=
  match fs with
  | none => (false, [])
  | some bytes =>
    match head with
    | .error _ => (false, [.headReq])
    | .ok expected =>
      (decide (0 < expected) && decide (bytes.length = expected), [.headReq])

/-- `_perform_download` (download.py, lines 71-89) together with
`_download_with_progress` (lines 47-68): issue the GET (with `Range` iff
`resume_pos > 0`); `raise_for_status` fails the attempt on a status outside
`[200, 206]` that is an HTTP error (>= 400); on a resume answered by 200 the
partial file is removed and the transfer restarts at 0 in truncate mode;
otherwise the body is appended (mode `'ab'`) when resuming and written fresh
(mode `'wb'`) when not.  Returns the new file, the events, and whether the
attempt succeeded. -/
def perform_download (g : GetOutcome) (fs : Option (List Nat))
    (resumePos : Nat) : Option (List Nat) × List Event × Bool :=
  match g with
  | .raises => (fs, [.getReq resumePos], false)
  | .response status _cl chunks raisesAfter =>
    if status ≠ 200 ∧ status ≠ 206 ∧ 400 ≤ status then
      (fs, [.getReq resumePos], false)
    else if 0 < resumePos ∧ status = 200 then
      (some chunks.flatten,
       [.getReq resumePos, .removeFile, .openFile false]
         ++ chunks.map Event.writeChunk,
       !raisesAfter)
    else
      (some ((if 0 < resumePos then fs.getD [] else []) ++ chunks.flatten),
       [.getReq resumePos, .openFile (decide (0 < resumePos))]
         ++ chunks.map Event.writeChunk,
       !raisesAfter)

/-- Aggregate result of `download_file`: the returned value (`none` models
Python's implicit `None` when `max_retries = 0`), the final state of the
destination file, and the event trace. -/
structure DLOutcome where
  result : Option Bool
  fs : Option (List Nat)
  trace : List Event
deriving DecidableEq, Repr

/-- The `for attempt in range(max_retries)` loop of `download_file`
(download.py, lines 98-114).  The fuel argument is the number of remaining
iterations; each attempt resumes from the current file size, returns `True`
on success, sleeps and retries on failure while attempts remain, and lets
the final failure escape to the outer handler, which returns `False` and
touches nothing on disk. -/
def downloadLoop (gets : Nat → GetOutcome) (maxRetries : Nat) :
    Nat → Nat → Option (List Nat) → List Event → DLOutcome
  | 0, _, fs, evs => ⟨none, fs, evs⟩
  | fuel + 1, attempt, fs, evs =>
    let resumePos := (fs.map List.length).getD 0
    let r := perform_download (gets attempt) fs resumePos
    if r.2.2 then ⟨some true, r.1, evs ++ r.2.1⟩
    else if attempt < maxRetries - 1 then
      downloadLoop gets maxRetries fuel (attempt + 1) r.1 (evs ++ r.2.1)
    else ⟨some false, r.1, evs ++ r.2.1⟩

/-- `download_file` (download.py, lines 92-120): skip when the existing file
checks out, otherwise run the attempt loop. -/
def download_file (head : Except Unit Nat) (gets : Nat → GetOutcome)
    (maxRetries : Nat) (fs : Option (List Nat)) : DLOutcome :=
  let c := check_existing_file head fs
  if c.1 then ⟨some true, fs, c.2⟩
  else downloadLoop gets maxRetries maxRetries 0 fs c.2

/-- Does a GET outcome make its attempt raise, whatever the file state when
it runs?  Every failure mode of `_perform_download` qualifies: a
timeout/connection error before the body, a `raise_for_status` status
(outside `[200, 206]` and >= 400), or an exception mid-transfer after some
chunks were already written to disk (the Partial-Transfer case). -/
def attemptFails : GetOutcome → Bool
  | .raises => true
  | .response status _ _ raisesAfter =>
    decide (status ≠ 200 ∧ status ≠ 206 ∧ 400 ≤ status) || raisesAfter

/-- The destination file after one attempt at index `i` runs over file state
`fs` (resuming from its size, exactly as the loop does). -/
def nextFs (gets : Nat → GetOutcome) (i : Nat) (fs : Option (List Nat)) :
    Option (List Nat) :=
  (perform_download (gets i) fs ((fs.map List.length).getD 0)).1

/-- The events of that same attempt. -/
def attemptTrace (gets : Nat → GetOutcome) (i : Nat) (fs : Option (List Nat)) :
    List Event :=
  (perform_download (gets i) fs ((fs.map List.length).getD 0)).2.1

/-- The file state and concatenated events after `n` consecutive attempts
starting at index `i` on file state `fs` -- what the attempt loop alone does
to the world, with nothing added after it. -/
def runAttempts (gets : Nat → GetOutcome) :
    Nat → Nat → Option (List Nat) → Option (List Nat) × List Event
  | 0, _, fs => (fs, [])
  | n + 1, i, fs =>
    let r := runAttempts gets n (i + 1) (nextFs gets i fs)
    (r.1, attemptTrace gets i fs ++ r.2)

/-! ## Batch download of a post's files

`extract_file_urls` (utils.py, lines 120-136) and `download_post_files`
(download.py, lines 127-174).  Name formatting (`format_file_name` and the
url-extension fallback for empty names) is templated formatting, which the
design treats as an external collaborator; it is abstracted as the oracle
`fmt` from (raw name, url, index) to the formatted file name.  Likewise the
nested `download_file` call is the oracle `dl` from (url, save path) to its
Boolean result. -/

/-- One media reference of a post: `server`, `path` and `name` keys, each
possibly missing. -/
structure MediaRef where
  server : Option String
  path : Option String
  name : Option String
deriving DecidableEq, Repr

/-- The media lists of a full post record. -/
structure PostData where
  previews : List MediaRef
  attachments : List MediaRef
  videos : List MediaRef
deriving DecidableEq, Repr

/-- One item's contribution in `extract_file_urls`: kept only when both
`server` and `path` are present, as `(item.get('name', ''),
f"{server}/data{path}")`. -/
def refUrl (r : MediaRef) : Option (String × String) :=
  match r.server, r.path with
  | some srv, some p => some (r.name.getD "", srv ++ "/data" ++ p)
  | _, _ => none

/-- `extract_file_urls`: previews, then attachments, then videos. -/
def extract_file_urls (post : PostData) : List (String × String) :=
  post.previews.filterMap refUrl ++ post.attachments.filterMap refUrl
    ++ post.videos.filterMap refUrl

/-- An entry of the `failed` list of `download_post_files`:
`{'url': url, 'name': formatted_name, 'save_path': save_path}`. -/
structure FailedEntry where
  url : String
  name : String
  save_path : String
deriving DecidableEq, Repr

/-- The per-post download outcome `{'total': .., 'success': .., 'failed': ..}`. -/
structure DLResult where
  total : Nat
  success : Nat
  failed : List FailedEntry
deriving DecidableEq, Repr

/-- `os.path.join(save_dir, formatted_name)`. -/
def pathJoin (a b : String) : String := a ++ "/" ++ b

/-- The body of the `for idx, (name, url) in enumerate(files_to_download)`
loop of `download_post_files`. -/
def dpfStep (fmt : String → String → Nat → String)
    (dl : String → String → Bool) (saveDir : String)
    (r : DLResult) (x : Nat × String × String) : DLResult :=
  let formatted := fmt x.2.1 x.2.2 x.1
  let savePath := pathJoin saveDir formatted
  if dl x.2.2 savePath then { r with success := r.success + 1 }
  else { r with failed := r.failed ++ [⟨x.2.2, formatted, savePath⟩] }

/-- `download_post_files` (download.py, lines 127-174), content-sidecar
writing elided (it touches no part of the outcome). -/
def download_post_files (fmt : String → String → Nat → String)
    (dl : String → String → Bool) (post : PostData) (saveDir : String) :
    DLResult :=
  let files := extract_file_urls post
  if files.isEmpty then ⟨0, 0, []⟩
  else files.enum.foldl (dpfStep fmt dl saveDir) ⟨files.length, 0, []⟩

/-- Whether the enumerated file downloads successfully. -/
def dpfOk (fmt : String → String → Nat → String)
    (dl : String → String → Bool) (saveDir : String)
    (x : Nat × String × String) : Bool :=
  dl x.2.2 (pathJoin saveDir (fmt x.2.1 x.2.2 x.1))

/-- The failed-list entry an enumerated file would produce. -/
def dpfEntry (fmt : String → String → Nat → String) (saveDir : String)
    (x : Nat × String × String) : FailedEntry :=
  ⟨x.2.2, fmt x.2.1 x.2.2 x.1, pathJoin saveDir (fmt x.2.1 x.2.2 x.1)⟩

/-! ## Sync orchestrator

`DownloadManager._download_posts` (download_manager.py, lines 113-183).
For each summary the `try` body fetches the full post, applies the filter,
and downloads the files; its outcome is an oracle from the summary:
an exception anywhere in the body, a filter rejection (`continue` before
any counter or watermark update), or a completed download with its
success/failure counts. -/

/-- Outcome of the `try` body of `_download_posts` for one post. -/
inductive PostStep where
  | raisedErr (msg : String)
  | filtered
  | downloaded (success : Nat) (failedCount : Nat)
deriving DecidableEq, Repr

/-- The per-pass result dictionary of `_download_posts` (artist identity
fields elided; they are copied verbatim from the input). -/
structure PassResult where
  posts_checked : Nat
  posts_downloaded : Nat
  files_downloaded : Nat
  files_failed : Nat
  latest_post_date : Option (List Char)
  errors : List String
deriving DecidableEq, Repr

/-- The watermark update
`if not result['latest_post_date'] or post_date > result['latest_post_date']`. -/
def updateLatest (cur : Option (List Char)) (d : List Char) :
    Option (List Char) :=
  if truthyOpt cur = false ∨ cur.getD [] < d then some d else cur

/-- One iteration of the `for post in posts` loop of `_download_posts`. -/
def processPost (step : Post → PostStep) (r : PassResult) (p : Post) :
    PassResult :=
  match step p with
  | .raisedErr m =>
    { r with errors :=
        r.errors ++ ["Error downloading post " ++ p.id ++ ": " ++ m] }
  | .filtered => r
  | .downloaded s f =>
    { r with
      posts_downloaded := r.posts_downloaded + 1,
      files_downloaded := r.files_downloaded + s,
      files_failed := r.files_failed + f,
      latest_post_date := updateLatest r.latest_post_date p.published }

/-- `_download_posts`: fold the loop body over the fetched summaries,
starting from the result dictionary initialised with `posts_checked =
len(posts)` and `latest_post_date = artist_data.get('last_post_date')`. -/
def download_posts (step : Post → PostStep) (prior : Option (List Char))
    (posts : List Post) : PassResult :=
  posts.foldl (processPost step) ⟨posts.length, 0, 0, 0, prior, []⟩

/-- Did the `try` body complete a download for this post (the only case that
touches the watermark)? -/
def stepDownloaded : PostStep → Bool
  | .downloaded _ _ => true
  | _ => false

/-- The error string a post contributes to `result['errors']`, if any. -/
def stepErrMsg (step : Post → PostStep) (p : Post) : Option String :=
  match step p with
  | .raisedErr m => some ("Error downloading post " ++ p.id ++ ": " ++ m)
  | _ => none

/-! ## Scheduler recurrence resolution

`Scheduler._calculate_next_run` (scheduler.py, lines 49-90), over a model of
Python's `datetime` restricted to second precision (the code zeroes
`second` and `microsecond` on every candidate it builds, and `now` only ever
feeds comparisons, which are lexicographic on the field tuple either way).
`replace(...)` validates its fields and raises `ValueError` on an invalid
date; that exception escapes `_calculate_next_run`, hence the `Except`. -/

/-- A naive `datetime.datetime` down to seconds. -/
structure DateTime where
  year : Nat
  month : Nat
  day : Nat
  hour : Nat
  minute : Nat
  second : Nat
deriving DecidableEq, Repr

/-- Field-lexicographic `datetime` comparison (`a <= b`). -/
def DateTime.leb (a b : DateTime) : Bool :=
  if a.year ≠ b.year then a.year < b.year
  else if a.month ≠ b.month then a.month < b.month
  else if a.day ≠ b.day then a.day < b.day
  else if a.hour ≠ b.hour then a.hour < b.hour
  else if a.minute ≠ b.minute then a.minute < b.minute
  else a.second ≤ b.second

/-- Strict `datetime` comparison (`a < b`). -/
def DateTime.ltb (a b : DateTime) : Bool :=
  !(DateTime.leb b a)

/-- Gregorian leap year, as `calendar.isleap` / `datetime` use it. -/
def isLeapYear (y : Nat) : Bool :=
  y % 4 = 0 && (y % 100 ≠ 0 || y % 400 = 0)

/-- Days in a month of the proleptic Gregorian calendar. -/
def daysInMonth (y m : Nat) : Nat :=
  if m = 2 then (if isLeapYear y then 29 else 28)
  else if m = 4 ∨ m = 6 ∨ m = 9 ∨ m = 11 then 30
  else 31

/-- Advance a valid date by one day. -/
def DateTime.addOneDay (d : DateTime) : DateTime :=
  if d.day < daysInMonth d.year d.month then { d with day := d.day + 1 }
  else if d.month < 12 then { d with month := d.month + 1, day := 1 }
  else { d with year := d.year + 1, month := 1, day := 1 }

/-- `d + timedelta(days = n)` for `n ≥ 0`. -/
def DateTime.addDays (d : DateTime) : Nat → DateTime
  | 0 => d
  | n + 1 => d.addOneDay.addDays n

/-- Days in the months of `y` strictly before month `m`. -/
def daysBeforeMonth (y m : Nat) : Nat :=
  (List.range (m - 1)).foldl (fun acc i => acc + daysInMonth y (i + 1)) 0

/-- `datetime.date.toordinal`: day count with 0001-01-01 as day 1. -/
def DateTime.toOrdinal (d : DateTime) : Nat :=
  (d.year - 1) * 365 + (d.year - 1) / 4 - (d.year - 1) / 100
    + (d.year - 1) / 400 + daysBeforeMonth d.year d.month + d.day

/-- `datetime.weekday()`: Monday is 0.  0001-01-01 (ordinal 1) was a
Monday in the proleptic Gregorian calendar. -/
def DateTime.weekday (d : DateTime) : Nat :=
  (d.toOrdinal + 6) % 7

/-- `now.replace(hour=h, minute=m, second=0, microsecond=0)`: raises
`ValueError` on an out-of-range time. -/
def DateTime.replaceTime (d : DateTime) (h m : Nat) : Except Unit DateTime :=
  if h ≤ 23 ∧ m ≤ 59 then .ok { d with hour := h, minute := m, second := 0 }
  else .error ()

/-- `now.replace(day=day, hour=h, minute=m, second=0, microsecond=0)`:
additionally validates the day against the current month. -/
def DateTime.replaceDayTime (d : DateTime) (day h m : Nat) :
    Except Unit DateTime :=
  if 1 ≤ day ∧ day ≤ daysInMonth d.year d.month ∧ h ≤ 23 ∧ m ≤ 59 then
    .ok { d with day := day, hour := h, minute := m, second := 0 }
  else .error ()

/-- `next_run.replace(month=m)`: validates the existing day in the new
month. -/
def DateTime.replaceMonth (d : DateTime) (m : Nat) : Except Unit DateTime :=
  if 1 ≤ m ∧ m ≤ 12 ∧ d.day ≤ daysInMonth d.year m then
    .ok { d with month := m }
  else .error ()

/-- `next_run.replace(year=y, month=m)`. -/
def DateTime.replaceYearMonth (d : DateTime) (y m : Nat) :
    Except Unit DateTime :=
  if 1 ≤ m ∧ m ≤ 12 ∧ d.day ≤ daysInMonth y m then
    .ok { d with year := y, month := m }
  else .error ()

/-- The timer dictionary: `type` (`'daily'` when absent, any unrecognised
value takes the final `else` branch, which repeats the daily logic), `time`
(`'02:00'` when absent) and `day` (weekly: 0 = Monday, default 0; monthly:
day of month, default 1). -/
inductive TimerType where
  | daily
  | weekly
  | monthly
  | other
deriving DecidableEq, Repr

structure Timer where
  ttype : TimerType
  time : Option (List Char)
  day : Option Nat
deriving DecidableEq, Repr

/-- Parse an unsigned decimal numeral, as `int()` does on a digit-only
string (`int()` accepts further forms -- signs, surrounding whitespace --
that never reach this code path; anything else raises, which the enclosing
`try` turns into the default below). -/
def digitsToNat : List Char → Option Nat → Option Nat
  | [], acc => acc
  | c :: cs, acc =>
    if '0' ≤ c ∧ c ≤ '9' then
      digitsToNat cs (some ((acc.getD 0) * 10 + (c.toNat - 48)))
    else none

/-- `str.split(':')` on a character list. -/
def splitOnColonGo (cs : List Char) (acc : List Char) :
    List (List Char) :=
  match cs with
  | [] => [acc.reverse]
  | c :: rest =>
    if c = ':' then acc.reverse :: splitOnColonGo rest []
    else splitOnColonGo rest (c :: acc)

def splitOnColon (cs : List Char) : List (List Char) :=
  splitOnColonGo cs []

/-- `hour, minute = map(int, time_str.split(':'))` with the enclosing
`try/except` defaulting to `(2, 0)`. -/
def parseTimeOfDay (s : List Char) : Nat × Nat :=
  match splitOnColon s with
  | [h, m] =>
    match digitsToNat h none, digitsToNat m none with
    | some hh, some mm => (hh, mm)
    | _, _ => (2, 0)
  | _ => (2, 0)

/-- `Scheduler._calculate_next_run`. -/
def calculate_next_run (timer : Timer) (now : DateTime) :
    Except Unit DateTime :=
  let hm := parseTimeOfDay (timer.time.getD ['0', '2', ':', '0', '0'])
  match timer.ttype with
  | .daily | .other =>
    match now.replaceTime hm.1 hm.2 with
    | .error e => .error e
    | .ok nr => .ok (if nr.leb now then nr.addDays 1 else nr)
  | .weekly =>
    match now.replaceTime hm.1 hm.2 with
    | .error e => .error e
    | .ok nr =>
      let day := timer.day.getD 0
      let daysAhead : Int := (day : Int) - (now.weekday : Int)
      let daysAhead' :=
        if daysAhead ≤ 0 ∨ (daysAhead = 0 ∧ nr.leb now = true) then
          daysAhead + 7
        else daysAhead
      .ok (nr.addDays daysAhead'.toNat)
  | .monthly =>
    let day := timer.day.getD 1
    match now.replaceDayTime day hm.1 hm.2 with
    | .error e => .error e
    | .ok nr =>
      if nr.leb now then
        if now.month = 12 then nr.replaceYearMonth (now.year + 1) 1
        else nr.replaceMonth (now.month + 1)
      else .ok nr

/-! ## Theorems -/

lemma pageScan_spec (wm : List Char) (hwm : wm ≠ []) :
    ∀ posts : List Post,
      pageScan (some wm) posts
        = (posts.takeWhile (fun p => decide (wm < p.published)),
           posts.any (fun p => decide (p.published ≤ wm))) := by
  intro posts
  induction posts with
  | nil => rfl
  | cons p rest ih =>
    have htruthy : truthyOpt (some wm) = true := by
      simp [truthyOpt, String.isEmpty]
      cases wm with
      | nil => exact absurd rfl hwm
      | cons c cs => simp [List.isEmpty]
    by_cases hle : p.published ≤ wm
    · have hnotlt : ¬ wm < p.published := not_lt.mpr hle
      simp [pageScan, htruthy, hle, List.takeWhile_cons, hnotlt]
    · have hlt : wm < p.published := not_le.mp hle
      simp [pageScan, htruthy, hle, List.takeWhile_cons, hlt, ih]

lemma takeWhile_eq_filter_of_sortedDesc (wm : List Char) :
    ∀ l : List Post, SortedDesc l →
      l.takeWhile (fun p => decide (wm < p.published))
        = l.filter (fun p => decide (wm < p.published)) := by
  intro l hl
  induction l with
  | nil => rfl
  | cons p rest ih =>
    rcases List.pairwise_cons.mp hl with ⟨hhead, htail⟩
    by_cases hlt : wm < p.published
    · simp [List.takeWhile_cons, hlt, List.filter_cons, ih htail]
    · have hple : p.published ≤ wm := not_lt.mp hlt
      have hrest : rest.filter (fun p => decide (wm < p.published)) = [] := by
        rw [List.filter_eq_nil_iff]
        intro x hx
        simp only [decide_eq_true_eq]
        exact not_lt.mpr (le_trans (hhead x hx) hple)
      simp [List.takeWhile_cons, hlt, List.filter_cons, hrest]

lemma fetchPages_watermark (wm : List Char) (hwm : wm ≠ []) :
    ∀ (pages : List (List Post)) (offset : Nat),
      (∀ pg ∈ pages, pg ≠ []) →
      SortedDesc pages.flatten →
      (fetchPages (some wm) pages offset).1
          = pages.flatten.filter (fun p => decide (wm < p.published))
        ∧ ∀ k, (hk : k < pages.length) →
            (∃ p ∈ pages.get ⟨k, hk⟩, p.published ≤ wm) →
            (fetchPages (some wm) pages offset).2.length ≤ k + 1 := by
  intro pages
  induction pages with
  | nil =>
    intro offset _ _
    exact ⟨rfl, fun k hk _ => absurd hk (Nat.not_lt_zero k)⟩
  | cons page rest ih =>
    intro offset hne hsorted
    have hpage : page ≠ [] := hne page (List.mem_cons_self page rest)
    have hpageE : page.isEmpty = false := by
      cases page with
      | nil => exact absurd rfl hpage
      | cons a l => rfl
    have htruthy : truthyOpt (some wm) = true := by
      cases wm with
      | nil => exact absurd rfl hwm
      | cons c cs => simp [truthyOpt, List.isEmpty]
    have hflat : (page :: rest).flatten = page ++ rest.flatten := rfl
    have hsplit := List.pairwise_append.mp (hflat ▸ hsorted)
    have hpagesorted : SortedDesc page := hsplit.1
    have hrestsorted : SortedDesc rest.flatten := hsplit.2.1
    have hcross : ∀ a ∈ page, ∀ b ∈ rest.flatten, b.published ≤ a.published :=
      hsplit.2.2
    have hscan := pageScan_spec wm hwm page
    by_cases hstop : page.any (fun p => decide (p.published ≤ wm)) = true
    · -- the early return fires inside this page
      rcases List.any_eq_true.mp hstop with ⟨q, hqmem, hqle⟩
      have hqle' : q.published ≤ wm := of_decide_eq_true hqle
      have hrestnil :
          rest.flatten.filter (fun p => decide (wm < p.published)) = [] := by
        rw [List.filter_eq_nil_iff]
        intro x hx
        simp only [decide_eq_true_eq]
        exact not_lt.mpr (le_trans (hcross q hqmem x hx) hqle')
      have hres : fetchPages (some wm) (page :: rest) offset
          = (page.takeWhile (fun p => decide (wm < p.published)), [offset]) := by
        simp [fetchPages, hpageE, hscan, hstop]
      constructor
      · rw [hres, hflat, List.filter_append, hrestnil, List.append_nil,
          takeWhile_eq_filter_of_sortedDesc wm page hpagesorted]
      · intro k hk _
        rw [hres]
        exact Nat.le_add_left 1 k
    · -- every summary on this page is strictly newer than the watermark
      have hall : ∀ p ∈ page, wm < p.published := by
        intro p hp
        by_contra hnlt
        exact hstop (List.any_eq_true.mpr
          ⟨p, hp, decide_eq_true (not_lt.mp hnlt)⟩)
      have hfilterpage :
          page.filter (fun p => decide (wm < p.published)) = page :=
        List.filter_eq_self.mpr (fun p hp => decide_eq_true (hall p hp))
      have htake : page.takeWhile (fun p => decide (wm < p.published)) = page :=
        (takeWhile_eq_filter_of_sortedDesc wm page hpagesorted).trans hfilterpage
      have hrestne : ∀ pg ∈ rest, pg ≠ [] :=
        fun pg hpg => hne pg (List.mem_cons_of_mem page hpg)
      obtain ⟨ih1, ih2⟩ := ih (offset + 50) hrestne hrestsorted
      have hres : fetchPages (some wm) (page :: rest) offset
          = (page ++ (fetchPages (some wm) rest (offset + 50)).1,
             offset :: (fetchPages (some wm) rest (offset + 50)).2) := by
        simp [fetchPages, hpageE, hscan, hstop, htruthy, htake]
      constructor
      · rw [hres, hflat, List.filter_append, hfilterpage, ih1]
      · intro k hk hex
        match k with
        | 0 =>
          rcases hex with ⟨p, hp, hple⟩
          exact absurd hple (not_le.mpr (hall p hp))
        | Nat.succ k =>
          have hk' : k < rest.length := Nat.lt_of_succ_lt_succ hk
          have := ih2 k hk' hex
          rw [hres]
          simpa [Nat.succ_le_succ_iff] using this

/-- C1: with a non-null (truthy) watermark and listing pages sorted
newest-first, `_fetch_new_posts` returns exactly the summaries strictly newer
than the watermark, in listing order, and stops at the page containing the
first summary `≤` the watermark without requesting any further page. -/
theorem fetch_new_posts_watermark_exact (pages : List (List Post)) (wm : List Char)
    (hwm : wm ≠ [])
    (hne : ∀ pg ∈ pages, pg ≠ [])
    (hsorted : SortedDesc pages.flatten) :
    (fetch_new_posts (some wm) pages).1
        = pages.flatten.filter (fun p => decide (wm < p.published))
      ∧ ∀ k, (hk : k < pages.length) →
          (∃ p ∈ pages.get ⟨k, hk⟩, p.published ≤ wm) →
          (fetch_new_posts (some wm) pages).2.length ≤ k + 1 :=
  fetchPages_watermark wm hwm pages 0 hne hsorted

/-- Witness for C1: watermark `"b"`, first page `["d", "c"]`, second page
`["b", "a"]` (all timestamps one character, sorted newest-first).  Exactly
the two posts newer than `"b"` are returned and only pages 0 and 1 are
requested. -/
theorem fetch_new_posts_watermark_exact_witness :
    (fetch_new_posts (some ['b'])
        [[⟨"p1", ['d']⟩, ⟨"p2", ['c']⟩], [⟨"p3", ['b']⟩, ⟨"p4", ['a']⟩]]).1
        = [⟨"p1", ['d']⟩, ⟨"p2", ['c']⟩]
      ∧ (fetch_new_posts (some ['b'])
          [[⟨"p1", ['d']⟩, ⟨"p2", ['c']⟩], [⟨"p3", ['b']⟩, ⟨"p4", ['a']⟩]]).2.length ≤ 2 := by
  have h := fetch_new_posts_watermark_exact
    [[⟨"p1", ['d']⟩, ⟨"p2", ['c']⟩], [⟨"p3", ['b']⟩, ⟨"p4", ['a']⟩]] ['b']
    (by decide) (by decide) (by decide)
  exact ⟨h.1.trans (by decide), h.2 1 (by decide) ⟨⟨"p3", ['b']⟩, by decide, by decide⟩⟩

/-- C7: with no watermark (`last_post_date` is `None`), `_fetch_new_posts`
requests only the page at offset 0 and returns exactly that first page,
regardless of how many pages the subject has. -/
theorem fetch_new_posts_bootstrap_one_page (pages : List (List Post)) :
    fetch_new_posts none pages = (pages.headD [], [0]) := by
  cases pages with
  | nil => rfl
  | cons page rest =>
    cases hpage : page with
    | nil => rfl
    | cons p l =>
      have hscan : ∀ posts : List Post, pageScan none posts = (posts, false) := by
        intro posts
        induction posts with
        | nil => rfl
        | cons q qs ih => simp [pageScan, truthyOpt, ih]
      simp [fetch_new_posts, fetchPages, hscan, truthyOpt, List.isEmpty]

/-- Counterexample to C3: 403 is a 4xx status other than 429, yet with the
default retryable set the operation is retried -- under `fetch_posts_page`'s
configuration (`max_retries = 10`, `base_delay = 2`, linear back-off) an
operation that always raises HTTP 403 is attempted 10 times with 9 sleeps,
not once with none. -/
theorem retry_403_is_retried :
    (400 ≤ 403 ∧ 403 < 500 ∧ 403 ≠ 429)
      ∧ retry_on_error 10 2 false defaultRetryStatus (fun _ => .httpErr (some 403))
          = ⟨.raised (.http (some 403)), 10,
             [2, 4, 6, 8, 10, 12, 14, 16, 18]⟩ := by
  constructor
  · exact ⟨by decide, by decide, by decide⟩
  · decide

/-- C3 (amended): a first attempt raising an HTTP error whose 4xx status is
neither 403 nor 429 is never retried under the default retryable set: the
operation is invoked exactly once, no sleep occurs, and the HTTP failure is
surfaced immediately. -/
theorem retry_nonretryable_once (s : Nat) (maxRetries baseDelay : Nat)
    (expo : Bool) (op : Nat → CallResult)
    (h4 : 400 ≤ s) (h5 : s < 500) (h403 : s ≠ 403) (h429 : s ≠ 429)
    (hmax : 1 ≤ maxRetries) (hop : op 0 = .httpErr (some s)) :
    retry_on_error maxRetries baseDelay expo defaultRetryStatus op
      = ⟨.raised (.http (some s)), 1, []⟩ := by
  have hmem : s ∉ defaultRetryStatus := by
    intro h
    rcases List.mem_cons.mp h with h' | h <;>
      [omega; rcases List.mem_cons.mp h with h' | h] <;>
      [omega; rcases List.mem_cons.mp h with h' | h] <;>
      [omega; rcases List.mem_cons.mp h with h' | h] <;>
      [omega; rcases List.mem_cons.mp h with h' | h] <;>
      [omega; rcases List.mem_cons.mp h with h' | h] <;>
      [omega; exact absurd h (List.not_mem_nil s)]
  have hnotin : statusRetryable defaultRetryStatus (some s) = false := by
    simp [statusRetryable, hmem]
  obtain ⟨fuel, hfuel⟩ : ∃ fuel, maxRetries = fuel + 1 :=
    ⟨maxRetries - 1, by omega⟩
  subst hfuel
  simp [retry_on_error, retryGo, hop, hnotin]

/-- Witness for C3 (amended): a constant HTTP 404 under `fetch_post`'s
configuration is attempted once, sleeps never, and surfaces the 404. -/
theorem retry_nonretryable_once_witness :
    retry_on_error 10 5 true defaultRetryStatus (fun _ => .httpErr (some 404))
      = ⟨.raised (.http (some 404)), 1, []⟩ :=
  retry_nonretryable_once 404 10 5 true (fun _ => .httpErr (some 404))
    (by decide) (by decide) (by decide) (by decide) (by decide) rfl

/-- Counterexample to C4: a 0-byte destination file whose HEAD probe succeeds
and reports `content-length: 0` -- equal to the local size -- is *not*
treated as already downloaded (the code demands `expected_size > 0`): a
streaming GET is issued. -/
theorem download_file_zero_size_not_skipped :
    ((Except.ok 0 : Except Unit Nat) = .ok (List.length ([] : List Nat)))
      ∧ Event.getReq 0 ∈ (download_file (.ok 0)
          (fun _ => .response 200 (some 0) [] false) 5 (some [])).trace := by
  constructor
  · rfl
  · decide

/-- C4 (amended): when the destination file exists and the HEAD probe
succeeds reporting a *positive* size equal to the local file's size,
`download_file` returns success immediately: the only request issued is the
HEAD, no GET happens, and the local file is unchanged. -/
theorem download_file_skip_existing (gets : Nat → GetOutcome)
    (maxRetries : Nat) (bytes : List Nat) (expected : Nat)
    (hsz : expected = bytes.length) (hpos : 0 < expected) :
    download_file (.ok expected) gets maxRetries (some bytes)
      = ⟨some true, some bytes, [.headReq]⟩ := by
  subst hsz
  have hskip : check_existing_file (.ok bytes.length) (some bytes)
      = (true, [.headReq]) := by
    simp [check_existing_file, hpos]
  simp [download_file, hskip]

/-- Witness for C4 (amended): a 3-byte file whose probe answers 3. -/
theorem download_file_skip_existing_witness :
    download_file (.ok 3) (fun _ => .raises) 5 (some [7, 8, 9])
      = ⟨some true, some [7, 8, 9], [.headReq]⟩ :=
  download_file_skip_existing (fun _ => .raises) 5 [7, 8, 9] 3 (by decide) (by decide)

/-- C5: an attempt that requested a resume (`resume_pos > 0`, `Range` header
sent) but was answered with status 200 discards the stale partial file
before anything is written and restarts from offset 0 in truncate-write
mode: the resulting file is exactly the response body, the removal precedes
the open and every write, and the open is non-append. -/
theorem perform_download_resume_downgrade (fs : Option (List Nat))
    (resumePos : Nat) (cl : Option Nat) (chunks : List (List Nat))
    (raisesAfter : Bool) (hpos : 0 < resumePos) :
    perform_download (.response 200 cl chunks raisesAfter) fs resumePos
      = (some chunks.flatten,
         [.getReq resumePos, .removeFile, .openFile false]
           ++ chunks.map Event.writeChunk,
         !raisesAfter) := by
  simp [perform_download, hpos]

/-- Witness for C5: a resume from byte 2 answered by 200 with body
`[5], [6]` yields the file `[5, 6]` (stale bytes `[1, 2]` gone) with the
removal traced before the truncate-mode open and the writes. -/
theorem perform_download_resume_downgrade_witness :
    perform_download (.response 200 none [[5], [6]] false) (some [1, 2]) 2
      = (some [5, 6],
         [.getReq 2, .removeFile, .openFile false,
          .writeChunk [5], .writeChunk [6]], true) := by
  have h := perform_download_resume_downgrade (some [1, 2]) 2 none [[5], [6]]
    false (by decide)
  exact h.trans (by decide)

lemma downloadLoop_succ (gets : Nat → GetOutcome) (maxRetries : Nat)
    (fuel attempt : Nat) (fs : Option (List Nat)) (evs : List Event) :
    downloadLoop gets maxRetries (fuel + 1) attempt fs evs
      = (if (perform_download (gets attempt) fs
              ((fs.map List.length).getD 0)).2.2 = true then
           ⟨some true,
            (perform_download (gets attempt) fs ((fs.map List.length).getD 0)).1,
            evs ++ (perform_download (gets attempt) fs
              ((fs.map List.length).getD 0)).2.1⟩
         else if attempt < maxRetries - 1 then
           downloadLoop gets maxRetries fuel (attempt + 1)
             (perform_download (gets attempt) fs ((fs.map List.length).getD 0)).1
             (evs ++ (perform_download (gets attempt) fs
               ((fs.map List.length).getD 0)).2.1)
         else
           ⟨some false,
            (perform_download (gets attempt) fs ((fs.map List.length).getD 0)).1,
            evs ++ (perform_download (gets attempt) fs
              ((fs.map List.length).getD 0)).2.1⟩) := rfl

lemma perform_download_fails (g : GetOutcome) (hfail : attemptFails g = true) :
    ∀ (fs : Option (List Nat)) (pos : Nat),
      (perform_download g fs pos).2.2 = false := by
  intro fs pos
  cases g with
  | raises => rfl
  | response status cl chunks raisesAfter =>
    have h' : (status ≠ 200 ∧ status ≠ 206 ∧ 400 ≤ status)
        ∨ raisesAfter = true := by
      simpa [attemptFails] using hfail
    rcases h' with hst | hr
    · simp [perform_download, hst]
    · rw [hr]
      by_cases hst : status ≠ 200 ∧ status ≠ 206 ∧ 400 ≤ status
      · simp [perform_download, hst]
      · by_cases hdg : 0 < pos ∧ status = 200 <;>
          simp [perform_download, hst, hdg]

lemma downloadLoop_all_fail (gets : Nat → GetOutcome) (maxRetries : Nat) :
    ∀ (fuel attempt : Nat) (fs : Option (List Nat)) (evs : List Event),
      fuel + attempt = maxRetries → 1 ≤ fuel →
      (∀ i, i < maxRetries → attemptFails (gets i) = true) →
      downloadLoop gets maxRetries fuel attempt fs evs
        = ⟨some false, (runAttempts gets fuel attempt fs).1,
           evs ++ (runAttempts gets fuel attempt fs).2⟩ := by
  intro fuel
  induction fuel with
  | zero => intro attempt fs evs _ h1; exact absurd h1 (by omega)
  | succ f ih =>
    intro attempt fs evs hsum _ hfails
    have hnosucc :
        (perform_download (gets attempt) fs ((fs.map List.length).getD 0)).2.2
          = false :=
      perform_download_fails (gets attempt) (hfails attempt (by omega)) fs _
    rw [downloadLoop_succ]
    cases f with
    | zero =>
      have hlast : ¬ attempt < maxRetries - 1 := by omega
      simp [hnosucc, hlast, runAttempts, nextFs, attemptTrace]
    | succ f' =>
      have hmore : attempt < maxRetries - 1 := by omega
      have hrec := ih (attempt + 1) (nextFs gets attempt fs)
        (evs ++ attemptTrace gets attempt fs) (by omega) (by omega) hfails
      simp only [hnosucc, hmore, if_true, if_false, Bool.false_eq_true]
      rw [show (perform_download (gets attempt) fs
            ((fs.map List.length).getD 0)).1 = nextFs gets attempt fs from rfl,
        show (perform_download (gets attempt) fs
            ((fs.map List.length).getD 0)).2.1 = attemptTrace gets attempt fs
          from rfl,
        hrec]
      simp [runAttempts, List.append_assoc]

lemma dpf_foldl_spec (fmt : String → String → Nat → String)
    (dl : String → String → Bool) (saveDir : String) :
    ∀ (l : List (Nat × String × String)) (r : DLResult),
      l.foldl (dpfStep fmt dl saveDir) r
        = ⟨r.total,
           r.success + (l.filter (dpfOk fmt dl saveDir)).length,
           r.failed ++ (l.filter (fun x => !dpfOk fmt dl saveDir x)).map
             (dpfEntry fmt saveDir)⟩ := by
  intro l
  induction l with
  | nil => intro r; simp
  | cons x xs ih =>
    intro r
    by_cases hx : dpfOk fmt dl saveDir x = true
    · have hx' : dl x.2.2 (pathJoin saveDir (fmt x.2.1 x.2.2 x.1)) = true := hx
      have hstep : dpfStep fmt dl saveDir r x = { r with success := r.success + 1 } := by
        simp only [dpfStep]
        rw [if_pos hx']
      simp only [List.foldl_cons, hstep, ih, List.filter_cons, hx]
      simp [Nat.add_assoc, Nat.add_comm 1]
    · have hx' : ¬ dl x.2.2 (pathJoin saveDir (fmt x.2.1 x.2.2 x.1)) = true := hx
      have hstep : dpfStep fmt dl saveDir r x
          = { r with failed := r.failed ++ [dpfEntry fmt saveDir x] } := by
        simp only [dpfStep]
        rw [if_neg hx']
        rfl
      simp only [List.foldl_cons, hstep, ih, List.filter_cons, hx]
      simp [hx, List.append_assoc]

lemma failed_entry_recorded (fmt : String → String → Nat → String)
    (dl : String → String → Bool) (post : PostData) (saveDir : String)
    (x : Nat × String × String) (hmem : x ∈ (extract_file_urls post).enum)
    (hfail : dpfOk fmt dl saveDir x = false) :
    dpfEntry fmt saveDir x ∈ (download_post_files fmt dl post saveDir).failed := by
  have hne0 : (extract_file_urls post).isEmpty = false := by
    cases h : extract_file_urls post with
    | nil => rw [h] at hmem; exact absurd hmem (List.not_mem_nil x)
    | cons a l => rfl
  rw [download_post_files]
  simp only [hne0, Bool.false_eq_true, if_false,
    dpf_foldl_spec fmt dl saveDir]
  refine List.mem_append.mpr (Or.inr (List.mem_map.mpr ⟨x, ?_, rfl⟩))
  exact List.mem_filter.mpr ⟨hmem, by simp [hfail]⟩

/-- C8: for *any* sequence of failing attempts -- connection errors, HTTP
status errors, or mid-transfer exceptions after chunks were written (the
Partial-Transfer case) -- the exhausted `download_file` reports the failure
by *returning* `False` (it does not raise), and the destination file and
event trace are exactly those the attempt loop itself produced: the terminal
failure adds no event and changes no byte, so whatever partial file the
attempts left on disk is kept, never deleted.  Moreover any file whose
`download_file` call returned `False` is recorded, with its url and target
save path, in the `failed` list of the enclosing `download_post_files` pass,
which still processes every other file of the post. -/
theorem download_file_terminal_failure_keeps_file (head : Except Unit Nat)
    (gets : Nat → GetOutcome) (fs : Option (List Nat)) (maxRetries : Nat)
    (hmax : 1 ≤ maxRetries)
    (hfails : ∀ i, i < maxRetries → attemptFails (gets i) = true)
    (hskip : (check_existing_file head fs).1 = false) :
    download_file head gets maxRetries fs
        = ⟨some false, (runAttempts gets maxRetries 0 fs).1,
           (check_existing_file head fs).2
             ++ (runAttempts gets maxRetries 0 fs).2⟩
      ∧ ∀ (fmt : String → String → Nat → String)
          (dl : String → String → Bool) (post : PostData) (saveDir : String)
          (x : Nat × String × String),
          x ∈ (extract_file_urls post).enum →
          dpfOk fmt dl saveDir x = false →
          dpfEntry fmt saveDir x
            ∈ (download_post_files fmt dl post saveDir).failed := by
  constructor
  · rw [download_file]
    simp only [hskip, Bool.false_eq_true, if_false]
    exact downloadLoop_all_fail gets maxRetries maxRetries 0 fs
      (check_existing_file head fs).2 (by omega) hmax hfails
  · exact fun fmt dl post saveDir x hmem hfail =>
      failed_entry_recorded fmt dl post saveDir x hmem hfail

/-- Witness for C8, exercising the Partial-Transfer case: attempt 0 gets a
200, writes the chunk `[1, 2, 3]`, then raises mid-transfer; attempt 1's
resume from byte 3 raises outright.  `download_file` returns `False` and the
3-byte partial file written by the failed attempt is still on disk, with no
removal in the trace; and in a one-file post whose download returns `False`,
that file's url and save path land in the `failed` list. -/
theorem download_file_terminal_failure_keeps_file_witness :
    download_file (.error ())
        (fun i => if i = 0 then .response 200 none [[1, 2, 3]] true else .raises)
        2 none
        = ⟨some false, some [1, 2, 3],
           [.getReq 0, .openFile false, .writeChunk [1, 2, 3], .getReq 3]⟩
      ∧ (⟨"s/data/p", "n", "d/n"⟩ : FailedEntry)
          ∈ (download_post_files (fun n _ _ => n) (fun _ _ => false)
              ⟨[⟨some "s", some "/p", some "n"⟩], [], []⟩ "d").failed := by
  have h := download_file_terminal_failure_keeps_file (.error ())
    (fun i => if i = 0 then .response 200 none [[1, 2, 3]] true else .raises)
    none 2 (by decide) (by decide) (by decide)
  refine ⟨h.1.trans (by decide), ?_⟩
  have h2 := h.2 (fun n _ _ => n) (fun _ _ => false)
    ⟨[⟨some "s", some "/p", some "n"⟩], [], []⟩ "d"
    (0, "n", "s/data/p") (by decide) (by decide)
  exact h2

/-- C10: the outcome of `download_post_files` satisfies the accounting
invariant `total = success + |failed|`; the failed list is exactly, in
order, one entry per extracted file whose download returned failure,
carrying that file's url and target save path; and a post with no
extractable files yields `{total: 0, success: 0, failed: []}`. -/
theorem download_post_files_accounting (fmt : String → String → Nat → String)
    (dl : String → String → Bool) (post : PostData) (saveDir : String) :
    (download_post_files fmt dl post saveDir).total
        = (download_post_files fmt dl post saveDir).success
          + (download_post_files fmt dl post saveDir).failed.length
      ∧ (download_post_files fmt dl post saveDir).failed
          = ((extract_file_urls post).enum.filter
              (fun x => !dpfOk fmt dl saveDir x)).map (dpfEntry fmt saveDir)
      ∧ (extract_file_urls post = [] →
          download_post_files fmt dl post saveDir = ⟨0, 0, []⟩) := by
  by_cases hnil : extract_file_urls post = []
  · refine ⟨?_, ?_, fun _ => ?_⟩ <;>
      simp [download_post_files, hnil]
  · have hne : (extract_file_urls post).isEmpty = false := by
      cases h : extract_file_urls post with
      | nil => exact absurd h hnil
      | cons a l => rfl
    have hdef : download_post_files fmt dl post saveDir
        = ⟨(extract_file_urls post).length,
           0 + ((extract_file_urls post).enum.filter
             (dpfOk fmt dl saveDir)).length,
           [] ++ ((extract_file_urls post).enum.filter
             (fun x => !dpfOk fmt dl saveDir x)).map (dpfEntry fmt saveDir)⟩ := by
      rw [download_post_files]
      simp only [hne, Bool.false_eq_true, if_false]
      exact dpf_foldl_spec fmt dl saveDir (extract_file_urls post).enum
        ⟨(extract_file_urls post).length, 0, []⟩
    refine ⟨?_, ?_, fun h => absurd h hnil⟩
    · rw [hdef]
      simp only [Nat.zero_add, List.nil_append, List.length_map]
      have hlen := List.length_eq_length_filter_add
        (l := (extract_file_urls post).enum) (dpfOk fmt dl saveDir)
      calc (extract_file_urls post).length
          = (extract_file_urls post).enum.length := (List.enum_length).symm
        _ = ((extract_file_urls post).enum.filter (dpfOk fmt dl saveDir)).length
            + ((extract_file_urls post).enum.filter
                (fun x => !dpfOk fmt dl saveDir x)).length := hlen
    · rw [hdef]
      simp

lemma processPost_foldl_latest (step : Post → PostStep) :
    ∀ (posts : List Post) (r : PassResult),
      (posts.foldl (processPost step) r).latest_post_date
        = ((posts.filter (fun p => stepDownloaded (step p))).map
            Post.published).foldl updateLatest r.latest_post_date := by
  intro posts
  induction posts with
  | nil => intro r; rfl
  | cons p ps ih =>
    intro r
    rcases hs : step p with m | - | ⟨s, f⟩ <;>
      simp [List.foldl_cons, List.filter_cons, processPost, hs, ih,
        stepDownloaded]

lemma processPost_foldl_errors (step : Post → PostStep) :
    ∀ (posts : List Post) (r : PassResult),
      (posts.foldl (processPost step) r).errors
        = r.errors ++ posts.filterMap (stepErrMsg step) := by
  intro posts
  induction posts with
  | nil => intro r; simp
  | cons p ps ih =>
    intro r
    rcases hs : step p with m | - | ⟨s, f⟩ <;>
      simp [List.foldl_cons, List.filterMap_cons, processPost, hs, ih,
        stepErrMsg]

lemma processPost_foldl_downloaded (step : Post → PostStep) :
    ∀ (posts : List Post) (r : PassResult),
      (posts.foldl (processPost step) r).posts_downloaded
        = r.posts_downloaded
          + (posts.filter (fun p => stepDownloaded (step p))).length := by
  intro posts
  induction posts with
  | nil => intro r; rfl
  | cons p ps ih =>
    intro r
    rcases hs : step p with m | - | ⟨s, f⟩ <;>
      simp [List.foldl_cons, List.filter_cons, processPost, hs, ih,
        stepDownloaded, Nat.add_assoc, Nat.add_comm 1]

lemma processPost_foldl_checked (step : Post → PostStep) :
    ∀ (posts : List Post) (r : PassResult),
      (posts.foldl (processPost step) r).posts_checked = r.posts_checked := by
  intro posts
  induction posts with
  | nil => intro r; rfl
  | cons p ps ih =>
    intro r
    rcases hs : step p with m | - | ⟨s, f⟩ <;>
      simp [List.foldl_cons, processPost, hs, ih]

lemma updateLatest_some (w d : List Char) :
    updateLatest (some w) d = some (max w d) := by
  by_cases hw : w = []
  · subst hw
    have hmax : max ([] : List Char) d = d := max_eq_right List.nil_le
    simp [updateLatest, truthyOpt, hmax]
  · have htruthy : truthyOpt (some w) = true := by
      cases w with
      | nil => exact absurd rfl hw
      | cons c cs => simp [truthyOpt, List.isEmpty]
    by_cases hlt : w < d
    · have hlt' : (some w).getD [] < d := hlt
      rw [updateLatest, if_pos (Or.inr hlt'), max_eq_right hlt.le]
    · have hcond : ¬ (truthyOpt (some w) = false ∨ (some w).getD [] < d) := by
        rintro (hfalse | hlt')
        · rw [htruthy] at hfalse
          exact Bool.noConfusion hfalse
        · exact hlt hlt'
      rw [updateLatest, if_neg hcond, max_eq_left (not_lt.mp hlt)]

lemma foldl_updateLatest_some (ds : List (List Char)) :
    ∀ w : List Char, ds.foldl updateLatest (some w) = some (ds.foldl max w) := by
  induction ds with
  | nil => intro w; rfl
  | cons d ds ih =>
    intro w
    rw [List.foldl_cons, updateLatest_some, ih, List.foldl_cons]

lemma le_foldl_max (ds : List (List Char)) :
    ∀ w : List Char, w ≤ ds.foldl max w := by
  induction ds with
  | nil => intro w; exact le_rfl
  | cons d ds ih =>
    intro w
    exact le_trans (le_max_left w d) (ih (max w d))

/-- C2: with a non-null prior watermark `w`, the watermark `_download_posts`
reports at the end of the pass is exactly the maximum of `w` and the publish
timestamps of the posts whose download completed (filtered and errored posts
never touch it); in particular it never regresses below `w`. -/
theorem download_posts_latest_max (step : Post → PostStep)
    (posts : List Post) (w : List Char) :
    (download_posts step (some w) posts).latest_post_date
        = some (((posts.filter (fun p => stepDownloaded (step p))).map
            Post.published).foldl max w)
      ∧ w ≤ ((download_posts step (some w) posts).latest_post_date).getD [] := by
  have h1 : (download_posts step (some w) posts).latest_post_date
      = some (((posts.filter (fun p => stepDownloaded (step p))).map
          Post.published).foldl max w) := by
    rw [download_posts, processPost_foldl_latest]
    exact foldl_updateLatest_some _ w
  refine ⟨h1, ?_⟩
  rw [h1]
  exact le_foldl_max _ w

/-- C9: an exception raised while handling one post of the pass is caught
and recorded as one entry of the pass's error list, in position, and the
remaining posts are still processed: the later posts' downloads are counted
and every summary is still checked. -/
theorem download_posts_error_isolation (step : Post → PostStep)
    (prior : Option (List Char)) (pre rest : List Post) (q : Post)
    (m : String) (hq : step q = .raisedErr m) :
    (download_posts step prior (pre ++ q :: rest)).errors
        = pre.filterMap (stepErrMsg step)
          ++ ("Error downloading post " ++ q.id ++ ": " ++ m)
            :: rest.filterMap (stepErrMsg step)
      ∧ (download_posts step prior (pre ++ q :: rest)).posts_downloaded
          = (pre.filter (fun p => stepDownloaded (step p))).length
            + (rest.filter (fun p => stepDownloaded (step p))).length
      ∧ (download_posts step prior (pre ++ q :: rest)).posts_checked
          = pre.length + 1 + rest.length := by
  have hmsg : stepErrMsg step q
      = some ("Error downloading post " ++ q.id ++ ": " ++ m) := by
    simp [stepErrMsg, hq]
  have hdl : stepDownloaded (step q) = false := by
    rw [hq]; rfl
  refine ⟨?_, ?_, ?_⟩
  · rw [download_posts, processPost_foldl_errors]
    simp [List.filterMap_append, List.filterMap_cons, hmsg]
  · rw [download_posts, processPost_foldl_downloaded]
    simp [List.filter_append, List.filter_cons, hdl]
  · rw [download_posts, processPost_foldl_checked]
    simp [Nat.add_comm, Nat.add_assoc, Nat.add_left_comm]

/-- Witness for C9: three posts where the middle one raises `boom`; the
error is recorded verbatim and both neighbours are still downloaded. -/
theorem download_posts_error_isolation_witness :
    (download_posts
        (fun p => if p.id = "bad" then .raisedErr "boom" else .downloaded 2 1)
        (some ['a'])
        [⟨"p1", ['c']⟩, ⟨"bad", ['b']⟩, ⟨"p3", ['a']⟩]).errors
        = ["Error downloading post bad: boom"]
      ∧ (download_posts
          (fun p => if p.id = "bad" then .raisedErr "boom" else .downloaded 2 1)
          (some ['a'])
          [⟨"p1", ['c']⟩, ⟨"bad", ['b']⟩, ⟨"p3", ['a']⟩]).posts_downloaded = 2
      ∧ (download_posts
          (fun p => if p.id = "bad" then .raisedErr "boom" else .downloaded 2 1)
          (some ['a'])
          [⟨"p1", ['c']⟩, ⟨"bad", ['b']⟩, ⟨"p3", ['a']⟩]).posts_checked = 3 := by
  have h := download_posts_error_isolation
    (fun p => if p.id = "bad" then .raisedErr "boom" else .downloaded 2 1)
    (some ['a']) [⟨"p1", ['c']⟩] [⟨"p3", ['a']⟩] ⟨"bad", ['b']⟩ "boom" (by decide)
  exact ⟨h.1.trans (by decide), h.2.1.trans (by decide), h.2.2.trans (by decide)⟩

/-- C6 fails on the code: for a weekly timer at 23:00 on Monday (`day = 0`)
evaluated on Monday 2024-01-01 at 01:00, the naive in-period instant
2024-01-01 23:00 is strictly in the future, yet `_calculate_next_run`
advances a full week to 2024-01-08 23:00 -- the `days_ahead <= 0` test
subsumes the dead `days_ahead == 0 and next_run <= now` test, so a
same-weekday rule always skips the current day.  (The daily branch behaves
as claimed; both example evaluations of the claim are included.) -/
theorem calculate_next_run_weekly_premature_advance :
    calculate_next_run ⟨.weekly, some ['2', '3', ':', '0', '0'], some 0⟩
        ⟨2024, 1, 1, 1, 0, 0⟩ = .ok ⟨2024, 1, 8, 23, 0, 0⟩
      ∧ DateTime.ltb ⟨2024, 1, 1, 1, 0, 0⟩ ⟨2024, 1, 1, 23, 0, 0⟩ = true
      ∧ DateTime.weekday ⟨2024, 1, 1, 1, 0, 0⟩ = 0
      ∧ calculate_next_run ⟨.daily, some ['0', '2', ':', '0', '0'], none⟩
          ⟨2024, 1, 1, 3, 0, 0⟩ = .ok ⟨2024, 1, 2, 2, 0, 0⟩
      ∧ calculate_next_run ⟨.daily, some ['0', '2', ':', '0', '0'], none⟩
          ⟨2024, 1, 1, 1, 0, 0⟩ = .ok ⟨2024, 1, 1, 2, 0, 0⟩ := by
  exact ⟨rfl, by decide, by decide, rfl, rfl⟩

end Crawler
